import Mathlib

/-!
Verification of the antique-item import-file generator.

The program reads one tabular CSV file, validates and normalizes it, and
produces three output tables (NetSuite item import, Shopify product import,
NetSuite inventory adjustment), one output row per input row.

Text is modelled as `List Char`; cells read from the CSV are `Option (List Char)`
(`none` is an empty cell, pandas `NaN`). Numbers are modelled as exact
rationals `ℚ`; the source's float literal `453.592` is the rational
`453592 / 1000`, and Python's built-in `round` (round-half-to-even on the
exact value) is `bankersRound` below.
-/

namespace AntiqueApp

abbrev Str := List Char

abbrev Cell := Option Str

/-- A cell value after normalization: a string, a missing value (`NaN`),
or a number (the numeric columns are coerced to numbers). -/
inductive Val where
  | vstr : Str → Val
  | vnan : Val
  | vnum : ℚ → Val
deriving DecidableEq

/-- A normalized row: association list from column name to cell value. -/
abbrev Row := List (Str × Val)

/-- The raw uploaded table: header names and rows of raw cells. -/
structure RawTable where
  headers : List Str
  rows : List (List Cell)
deriving DecidableEq

def skuCol : Str := "SKU".toList
def descCol : Str := "Fragrance - Vessel Description".toList
def priceCol : Str := "Retail Price".toList
def lbsCol : Str := "End Weight (lbs)".toList
def qtyCol : Str := "Quantity".toList
def burnCol : Str := "Burn Time".toList
def endWCol : Str := "End Weight".toList
def heightCol : Str := "Height".toList
def widthCol : Str := "Width".toList

/-- `numeric_cols_to_check` from the source (app.py line 128). -/
def numeric_cols_to_check : List Str :=
  [priceCol, lbsCol, qtyCol, burnCol, endWCol, heightCol, widthCol]

/-- `required_cols` from the source (app.py line 137). -/
def required_cols : List Str := [skuCol, descCol, priceCol, lbsCol, qtyCol]

/-- Python `str.strip()`: drop leading and trailing whitespace. -/
def trimChars (s : Str) : Str :=
  ((s.dropWhile Char.isWhitespace).reverse.dropWhile Char.isWhitespace).reverse

/-- Value of a list of decimal digit characters. -/
def digitsVal (l : Str) : ℕ :=
  l.foldl (fun n c => n * 10 + (c.toNat - 48)) 0

/-!
The library arithmetic on `ℚ` is marked irreducible, which blocks kernel
evaluation of concrete witnesses. `qmul`, `qadd` and `qsub` below are
kernel-computable exact-rational operations, proved equal to the standard
`*`, `+` and `-` on `ℚ` (`qmul_eq`, `qadd_eq`, `qsub_eq` later in the file).
-/

/-- Exact rational multiplication, kernel-computable. -/
def qmul (a b : ℚ) : ℚ := mkRat (a.num * b.num) (a.den * b.den)

/-- Exact rational addition, kernel-computable. -/
def qadd (a b : ℚ) : ℚ := mkRat (a.num * b.den + b.num * a.den) (a.den * b.den)

/-- Exact rational subtraction, kernel-computable. -/
def qsub (a b : ℚ) : ℚ := mkRat (a.num * b.den - b.num * a.den) (a.den * b.den)

/-- `pd.to_numeric(·, errors='coerce')` on a string cell: parse an optionally
signed decimal literal; anything else is `NaN` (here `none`). -/
def parseNum (s : Str) : Option ℚ :=
  let t := trimChars s
  let neg : Bool := match t with | '-' :: _ => true | _ => false
  let u : Str := match t with | '-' :: r => r | '+' :: r => r | _ => t
  let signed : ℚ → ℚ := fun q => if neg then -q else q
  let ip := u.takeWhile Char.isDigit
  let rest := u.dropWhile Char.isDigit
  match rest with
  | [] => if ip.isEmpty then none else some (signed (digitsVal ip : ℚ))
  | '.' :: fr =>
    if fr.all Char.isDigit && !(ip.isEmpty && fr.isEmpty) then
      some (signed (qadd (digitsVal ip : ℚ) (mkRat (digitsVal fr) (10 ^ fr.length))))
    else none
  | _ => none

/-- `pd.to_numeric(...).fillna(0)` on one cell (app.py line 146):
empty or unparseable cells coerce to `0`. -/
def coerceNum (c : Cell) : ℚ :=
  (c.bind parseNum).getD 0

/-- A non-numeric cell kept as-is (empty cell is `NaN`). -/
def rawVal : Cell → Val
  | none => Val.vnan
  | some s => Val.vstr s

/-- One row after header alignment and numeric coercion (app.py lines 144-146):
each header takes its cell (missing trailing cells are `NaN`, as in
`pd.read_csv`); cells under the numeric columns are coerced to numbers. -/
def baseRow : List Str → List Cell → Row
  | [], _ => []
  | h :: t, cells =>
    (h, if h ∈ numeric_cols_to_check then Val.vnum (coerceNum (cells.headD none))
        else rawVal (cells.headD none)) :: baseRow t cells.tail

/-- Look a column up in a normalized row (`row[col]` on a pandas Series). -/
def getVal (r : Row) (c : Str) : Option Val :=
  (r.find? (fun p => decide (p.1 = c))).map Prod.snd

/-- Full row normalization: `baseRow`, then the `End Weight` synthesis of
app.py lines 148-150 (`End Weight = End Weight (lbs) * 16` when the column
is absent but `End Weight (lbs)` is present). -/
def normalizeRow (hs : List Str) (cells : List Cell) : Row :=
  if endWCol ∈ hs ∨ ¬ lbsCol ∈ hs then baseRow hs cells
  else
    match getVal (baseRow hs cells) lbsCol with
    | some (Val.vnum q) => baseRow hs cells ++ [(endWCol, Val.vnum (qmul q 16))]
    | _ => baseRow hs cells

/-- Python `str(float)` for an exact rational: `"n.0"` for integers, the exact
decimal expansion when the denominator divides a power of ten, and a
fraction rendering otherwise (such values do not arise from CSV input). -/
def fmtQ (q : ℚ) : Str :=
  let sign : Str := if q < 0 then "-".toList else []
  let a := q.num.natAbs
  let b := q.den
  if b = 1 then sign ++ (Nat.repr a).toList ++ ".0".toList
  else
    match (List.range 40).find? (fun k => decide (b ∣ 10 ^ k)) with
    | some k =>
      let scaled := a * 10 ^ k / b
      let fpStr := (Nat.repr (scaled % 10 ^ k)).toList
      sign ++ (Nat.repr (scaled / 10 ^ k)).toList ++ ".".toList
        ++ List.replicate (k - fpStr.length) '0' ++ fpStr
    | none => sign ++ (Nat.repr a).toList ++ "/".toList ++ (Nat.repr b).toList

/-- Python `str()` of a cell value. -/
def pyStr : Val → Str
  | Val.vstr s => s
  | Val.vnan => "nan".toList
  | Val.vnum q => fmtQ q

/-- `str()` of a looked-up cell (empty when absent; used only under the
hypothesis that the lookup succeeded). -/
def pyStrOf (r : Row) (c : Str) : Str :=
  match getVal r c with
  | some v => pyStr v
  | none => []

/-- Boolean prefix test on character lists. -/
def isPre : Str → Str → Bool
  | [], _ => true
  | _ :: _, [] => false
  | a :: as, b :: bs => a == b && isPre as bs

/-- Worker for Python `str.split(sep)` with nonempty separator `c0 :: cs`:
scan left to right, split at each leftmost non-overlapping occurrence.
The fuel argument is at least the length of the string. -/
def splitSeqF (c0 : Char) (cs : Str) : ℕ → Str → List Str
  | _, [] => [[]]
  | 0, s => [s]
  | n + 1, c :: rest =>
    if isPre (c0 :: cs) (c :: rest) then
      [] :: splitSeqF c0 cs n ((c :: rest).drop (cs.length + 1))
    else
      match splitSeqF c0 cs n rest with
      | [] => [[c]]
      | h :: t => (c :: h) :: t

/-- Python `s.split(sep)` (empty separators do not occur in the program). -/
def pySplit (sep s : Str) : List Str :=
  match sep with
  | [] => [s]
  | c0 :: cs => splitSeqF c0 cs s.length s

/-- Python `sep.join(parts)`. -/
def joinSep (sep : Str) : List Str → Str
  | [] => []
  | [x] => x
  | x :: xs => x ++ sep ++ joinSep sep xs

/-- `' - '.join([part.strip() for part in description.split('|')])`
(app.py line 168). -/
def netsuite_display_name (d : Str) : Str :=
  joinSep (" - ".toList) ((pySplit ("|".toList) d).map trimChars)

/-- Python `s.replace(a, b)` for one-character pattern and replacement. -/
def pyReplaceChar (a b : Char) (s : Str) : Str :=
  s.map (fun c => if c = a then b else c)

/-- `original_description.replace('|', '-').split('-')[0].strip()`
(app.py lines 215-216). -/
def fragrance (d : Str) : Str :=
  trimChars ((pySplit ("-".toList) (pyReplaceChar '|' '-' d)).headD [])

/-- `fragrance.replace(' ', '-').lower()` (app.py line 217). -/
def smells_like (d : Str) : Str :=
  (pyReplaceChar ' ' '-' (fragrance d)).map Char.toLower

/-- Python `s[-6:]`: the last six characters, or all of them if fewer. -/
def pyLast6 (s : Str) : Str :=
  s.drop (s.length - 6)

/-- The Shopify `Tags` cell (app.py line 218). -/
def shopify_tags (sku_str d : Str) : Str :=
  "_tab2_antique-restock-101,antique".toList ++ pyLast6 sku_str
    ++ ",_tab1_".toList ++ smells_like d ++ "-smells-like, ".toList ++ fragrance d

/-- The Shopify `Body (HTML)` template (app.py lines 208-212), with the four
interpolated strings as parameters. The concatenation below spells out the
f-string of the source verbatim. -/
def body_html (bt ew h w : Str) : Str :=
  "\n                <p data-mce-fragment=\"1\">Approximate Burn Time: ".toList ++ bt
    ++ " hours</p>\n                <p data-mce-fragment=\"1\">".toList
    ++ "Weight: ".toList ++ ew ++ " oz".toList
    ++ "</p>\n                <p data-mce-fragment=\"1\">Dimensions: ".toList ++ h
    ++ "\" Height x ".toList ++ w
    ++ "\" Width</p>\n            ".toList

/-- `row.get('Height', 'N/A')` rendered by the f-string. -/
def heightDispOf (r : Row) : Str :=
  match getVal r heightCol with
  | some v => pyStr v
  | none => "N/A".toList

/-- `row.get('Width', 'N/A')` rendered by the f-string. -/
def widthDispOf (r : Row) : Str :=
  match getVal r widthCol with
  | some v => pyStr v
  | none => "N/A".toList

/-- Python's built-in `round` on an exact rational: nearest integer, ties
to the even integer. -/
def bankersRound (q : ℚ) : ℤ :=
  let f : ℤ := Int.ediv q.num q.den
  let r : ℚ := qsub q (f : ℚ)
  if r < mkRat 1 2 then f
  else if mkRat 1 2 < r then f + 1
  else if f % 2 = 0 then f else f + 1

/-- One NetSuite item-import row; fields as assigned in app.py lines 171-189
(columns never assigned are omitted: they stay blank). -/
structure NetsuiteRow where
  externalid : Val
  itemid : Val
  displayName : Str
  unitstype : Str
  location : Str
  trackLandedCost : Str
  costingmethod : Str
  costcategory : Str
  atpmethod : Str
  autopreferredstocklevel : Str
  isspecialorderitem : Str
  usebins : Str
  cogsaccount : ℤ
  incomeaccount : ℤ
  assetaccount : ℤ
  taxSchedule : Str
  isinactive : Str
  price : Val
  weight : Val
deriving DecidableEq

/-- One Shopify product-import row; fields as assigned in app.py
lines 205-231 (columns never assigned are omitted: they stay blank). -/
structure ShopifyRow where
  handle : Str
  title : Str
  bodyHtml : Str
  tags : Str
  published : Str
  variantSKU : Val
  variantGrams : ℤ
  variantInventoryTracker : Str
  variantInventoryPolicy : Str
  variantFulfillmentService : Str
  variantPrice : Val
  variantRequiresShipping : Str
  variantTaxable : Str
  giftCard : Str
  variantWeightUnit : Str
  status : Str
deriving DecidableEq

/-- One inventory-adjustment row; fields as assigned in app.py
lines 192-202. -/
structure InvAdjRow where
  externalId : Str
  fullName : Str
  account : ℤ
  classCol : Str
  department : Str
  memo : Str
  lineQtyAdj : Val
  lineAdjLoc : Str
  lineMemo : Str
  itemId : Val
deriving DecidableEq

def netsuiteRowOf (skuV priceV : Val) (lbsQ : ℚ) (name : Str) : NetsuiteRow :=
  { externalid := skuV
    itemid := skuV
    displayName := name
    unitstype := "Quantity".toList
    location := "ACC 1611".toList
    trackLandedCost := "FALSE".toList
    costingmethod := "AVERAGE".toList
    costcategory := "Default".toList
    atpmethod := "Discrete ATP".toList
    autopreferredstocklevel := "TRUE".toList
    isspecialorderitem := "FALSE".toList
    usebins := "FALSE".toList
    cogsaccount := 318
    incomeaccount := 429
    assetaccount := 227
    taxSchedule := "Non-taxable".toList
    isinactive := "FALSE".toList
    price := priceV
    weight := Val.vnum lbsQ }

def invRowOf (skuV qtyV : Val) (sku_str name : Str) : InvAdjRow :=
  { externalId := "Antique Restock ".toList ++ pyLast6 sku_str
    fullName := sku_str ++ " ".toList ++ name
    account := 325
    classCol := "Operations : Production".toList
    department := "Retail".toList
    memo := "Antique Restock ".toList ++ pyLast6 sku_str
    lineQtyAdj := qtyV
    lineAdjLoc := "ACC 1611".toList
    lineMemo := "Antique Restock ".toList ++ pyLast6 sku_str
    itemId := skuV }

def shopifyRowOf (r : Row) (skuV priceV : Val) (lbsQ : ℚ) (burnV endWV : Val)
    (sku_str d : Str) : ShopifyRow :=
  { handle := sku_str.filter (fun c => c != ' ')
    title := d
    bodyHtml := body_html (pyStr burnV) (pyStr endWV) (heightDispOf r) (widthDispOf r)
    tags := shopify_tags sku_str d
    published := "FALSE".toList
    variantSKU := skuV
    variantGrams := bankersRound (qmul lbsQ (mkRat 453592 1000))
    variantInventoryTracker := "shopify".toList
    variantInventoryPolicy := "deny".toList
    variantFulfillmentService := "manual".toList
    variantPrice := priceV
    variantRequiresShipping := "TRUE".toList
    variantTaxable := "TRUE".toList
    giftCard := "FALSE".toList
    variantWeightUnit := "lb".toList
    status := "active".toList }

abbrev RowTriple := NetsuiteRow × ShopifyRow × InvAdjRow

instance {ε α : Type} [DecidableEq ε] [DecidableEq α] :
    DecidableEq (Except ε α) := fun x y =>
  match x, y with
  | Except.ok a, Except.ok b =>
    decidable_of_iff (a = b) ⟨congrArg Except.ok, Except.ok.inj⟩
  | Except.ok _, Except.error _ => isFalse (by simp)
  | Except.error _, Except.ok _ => isFalse (by simp)
  | Except.error e, Except.error f =>
    decidable_of_iff (e = f) ⟨congrArg Except.error, Except.error.inj⟩

/-- The body of the processing loop (app.py lines 163-231) for one row whose
lookups succeeded. -/
def mkRowTriple (r : Row) (descV skuV priceV : Val) (lbsQ : ℚ)
    (qtyV burnV endWV : Val) : RowTriple :=
  let original_description := pyStr descV
  let name := netsuite_display_name original_description
  let sku_str := pyStr skuV
  (netsuiteRowOf skuV priceV lbsQ name,
   shopifyRowOf r skuV priceV lbsQ burnV endWV sku_str original_description,
   invRowOf skuV qtyV sku_str name)

inductive RunError where
  | missingColumns : List Str → RunError
  | rowFailure : RunError
deriving DecidableEq

/-- One loop iteration. A failed column lookup (e.g. `row['Burn Time']` with
no such column) raises in Python and is caught by the top-level handler;
here it is `RunError.rowFailure`. -/
def processRow (r : Row) : Except RunError RowTriple :=
  match getVal r descCol, getVal r skuCol, getVal r priceCol, getVal r lbsCol,
      getVal r qtyCol, getVal r burnCol, getVal r endWCol with
  | some descV, some skuV, some priceV, some (Val.vnum lbsQ), some qtyV,
      some burnV, some endWV =>
    Except.ok (mkRowTriple r descV skuV priceV lbsQ qtyV burnV endWV)
  | _, _, _, _, _, _, _ => Except.error RunError.rowFailure

/-- Run the loop over all rows; the first failure aborts the whole run
(the `try`/`except` of app.py lines 117 and 258 discards all output). -/
def processRows : List Row → Except RunError (List RowTriple)
  | [] => Except.ok []
  | r :: rs =>
    match processRow r, processRows rs with
    | Except.error e, _ => Except.error e
    | Except.ok _, Except.error e => Except.error e
    | Except.ok t, Except.ok ts => Except.ok (t :: ts)

/-- `missing_cols` from the source (app.py line 138), computed over the
whitespace-stripped headers (line 125). -/
def missing_cols (t : RawTable) : List Str :=
  required_cols.filter (fun c => decide (¬ c ∈ t.headers.map trimChars))

/-- The error text of app.py line 141. -/
def missing_message (cs : List Str) : Str :=
  "**Error:** Your file is missing the following required columns: `".toList
    ++ joinSep (", ".toList) cs ++ "`".toList

def errorMessageOf : RunError → Str
  | RunError.missingColumns cs => missing_message cs
  | RunError.rowFailure => "An unexpected error occurred".toList

/-- The whole conversion run: strip headers, validate required columns,
normalize, process every row into the three output tables. -/
def run (t : RawTable) :
    Except RunError (List NetsuiteRow × List ShopifyRow × List InvAdjRow) :=
  if missing_cols t ≠ [] then
    Except.error (RunError.missingColumns (missing_cols t))
  else
    match processRows (t.rows.map (normalizeRow (t.headers.map trimChars))) with
    | Except.error e => Except.error e
    | Except.ok ts =>
      Except.ok (ts.map (fun x => x.1), ts.map (fun x => x.2.1),
        ts.map (fun x => x.2.2))

/-! Concrete inputs used by the witnesses and counterexamples below. -/

/-- The example description of the worked example (spec §8). -/
def exDesc : Str := "Vanilla Bean | Mason Jar".toList

/-- A normalized row matching the worked example of spec §8
(`End Weight` already synthesized as `1.5 × 16 = 24`). -/
def exRow : Row :=
  [(skuCol, Val.vstr ("ABC123456".toList)), (descCol, Val.vstr exDesc),
   (priceCol, Val.vnum (mkRat 2499 100)), (lbsCol, Val.vnum (mkRat 3 2)),
   (qtyCol, Val.vnum 3), (burnCol, Val.vnum 40), (endWCol, Val.vnum 24)]

/-- The worked-example raw table (spec §8); `End Weight` column absent. -/
def exTable : RawTable :=
  { headers := [skuCol, descCol, priceCol, lbsCol, qtyCol, burnCol]
    rows := [[some ("ABC123456".toList), some exDesc, some ("24.99".toList),
              some ("1.5".toList), some ("3".toList), some ("40".toList)]] }

/-- A raw table whose headers miss the required `Quantity` column. -/
def exTableBad : RawTable :=
  { headers := [skuCol, descCol, priceCol, lbsCol]
    rows := [[some ("A1".toList), some ("B".toList), some ("1".toList),
              some ("2".toList)]] }

/-- A raw table with all required columns but no `Burn Time` column. -/
def tNoBurn : RawTable :=
  { headers := [skuCol, descCol, priceCol, lbsCol, qtyCol]
    rows := [[some ("A1".toList), some ("B".toList), some ("1".toList),
              some ("2".toList), some ("3".toList)]] }

/-- Headers of a validated table, used to exhibit a negative coerced value. -/
def hsNeg : List Str := [skuCol, descCol, priceCol, lbsCol, qtyCol]

/-- Cells with a negative `Retail Price` entry. -/
def cellsNeg : List Cell :=
  [some ("A1".toList), some ("B".toList), some ("-1".toList),
   some ("2".toList), some ("3".toList)]

/-- Headers of the worked-example table (no `End Weight`, `Height`, `Width`). -/
def hsW : List Str := [skuCol, descCol, priceCol, lbsCol, qtyCol, burnCol]

/-- Cells of the worked-example row. -/
def cellsW : List Cell :=
  [some ("ABC123456".toList), some exDesc, some ("24.99".toList),
   some ("1.5".toList), some ("3".toList), some ("40".toList)]

/-! ## Generic list lemmas -/

theorem preInfix {l₁ l₂ : Str} (h : l₁ <+: l₂) : l₁ <:+: l₂ := by
  obtain ⟨t, rfl⟩ := h
  exact ⟨[], t, by simp⟩

theorem sufInfix {l₁ l₂ : Str} (h : l₁ <:+ l₂) : l₁ <:+: l₂ := by
  obtain ⟨s, rfl⟩ := h
  exact ⟨s, [], by simp⟩

theorem infixTrans {l₁ l₂ l₃ : Str} (h : l₁ <:+: l₂) (h' : l₂ <:+: l₃) :
    l₁ <:+: l₃ :=
  List.IsInfix.trans h h'

theorem nilInfix (s : Str) : [] <:+: s := ⟨[], s, by simp⟩

theorem consInfix {c : Char} {l m : Str} (h : l <:+: m) : l <:+: c :: m := by
  obtain ⟨s, t, rfl⟩ := h
  exact ⟨c :: s, t, rfl⟩

theorem infix_append_outer {x m : Str} (A B : Str) (h : x <:+: m) :
    x <:+: A ++ m ++ B := by
  obtain ⟨s, t, rfl⟩ := h
  exact ⟨A ++ s, t ++ B, by simp [List.append_assoc]⟩

theorem singletonInfix {a : Char} {l : Str} (h : a ∈ l) : [a] <:+: l := by
  obtain ⟨s, t, rfl⟩ := List.append_of_mem h
  exact ⟨s, t, by simp⟩

theorem memOfSingletonInfix {a : Char} {l : Str} (h : [a] <:+: l) : a ∈ l := by
  obtain ⟨s, t, rfl⟩ := h
  simp

/-! ## Lemmas about the string primitives -/

theorem isPre_iff : ∀ l₁ l₂ : Str, isPre l₁ l₂ = true ↔ l₁ <+: l₂
  | [], l₂ => by simp [isPre]
  | a :: as, [] => by simp [isPre]
  | a :: as, b :: bs => by
    simp [isPre, List.cons_prefix_cons, isPre_iff as bs]

theorem trimChars_sub (s : Str) : trimChars s <:+: s := by
  unfold trimChars
  have h1 : s.dropWhile Char.isWhitespace <:+ s := List.dropWhile_suffix _
  have h2 : (((s.dropWhile Char.isWhitespace).reverse.dropWhile
      Char.isWhitespace).reverse) <+: s.dropWhile Char.isWhitespace := by
    obtain ⟨u, hu⟩ :=
      List.dropWhile_suffix (l := (s.dropWhile Char.isWhitespace).reverse)
        Char.isWhitespace
    refine ⟨u.reverse, ?_⟩
    rw [← List.reverse_append, hu, List.reverse_reverse]
  exact infixTrans (preInfix h2) (sufInfix h1)

theorem splitSeqF_ne_nil (c0 : Char) (cs : Str) :
    ∀ n s, splitSeqF c0 cs n s ≠ []
  | _, [] => by simp [splitSeqF]
  | 0, c :: rest => by simp [splitSeqF]
  | n + 1, c :: rest => by
    simp only [splitSeqF]
    split
    · simp
    · split <;> simp

theorem splitSeqF_head (c0 : Char) (cs : Str) :
    ∀ n s, s.length ≤ n → ∃ h t, splitSeqF c0 cs n s = h :: t ∧ h <+: s
  | n, [], _ => ⟨[], [], by simp [splitSeqF], List.nil_prefix⟩
  | 0, c :: rest, h => absurd h (by simp)
  | n + 1, c :: rest, hlen => by
    by_cases hp : isPre (c0 :: cs) (c :: rest) = true
    · exact ⟨[], splitSeqF c0 cs n ((c :: rest).drop (cs.length + 1)),
        by simp only [splitSeqF, if_pos hp], List.nil_prefix⟩
    · have hr : rest.length ≤ n := by simp at hlen; omega
      obtain ⟨h', t', heq, hpre⟩ := splitSeqF_head c0 cs n rest hr
      exact ⟨c :: h', t', by simp [splitSeqF, hp, heq],
        List.cons_prefix_cons.mpr ⟨rfl, hpre⟩⟩

theorem splitSeqF_parts_sub (c0 : Char) (cs : Str) :
    ∀ n s q, s.length ≤ n → q ∈ splitSeqF c0 cs n s → q <:+: s
  | n, [], q, _, hq => by
    simp [splitSeqF] at hq
    simp [hq, nilInfix]
  | 0, c :: rest, q, hlen, _ => absurd hlen (by simp)
  | n + 1, c :: rest, q, hlen, hq => by
    have hr : rest.length ≤ n := by simp at hlen; omega
    by_cases hp : isPre (c0 :: cs) (c :: rest) = true
    · simp only [splitSeqF, if_pos hp] at hq
      rcases List.mem_cons.mp hq with h | h
      · simp [h, nilInfix]
      · have hd : ((c :: rest).drop (cs.length + 1)).length ≤ n := by
          simp [List.length_drop]
          omega
        have := splitSeqF_parts_sub c0 cs n _ q hd h
        exact infixTrans this (sufInfix (List.drop_suffix _ _))
    · obtain ⟨h', t', heq, hpre⟩ := splitSeqF_head c0 cs n rest hr
      simp only [splitSeqF, if_neg hp, heq] at hq
      rcases List.mem_cons.mp hq with h | h
      · subst h
        exact preInfix (List.cons_prefix_cons.mpr ⟨rfl, hpre⟩)
      · have : q ∈ splitSeqF c0 cs n rest := by rw [heq]; exact List.mem_cons_of_mem _ h
        exact consInfix (splitSeqF_parts_sub c0 cs n rest q hr this)

theorem splitSeqF_fuel (c0 : Char) (cs : Str) :
    ∀ n m s, s.length ≤ n → s.length ≤ m →
      splitSeqF c0 cs n s = splitSeqF c0 cs m s
  | n, m, [], _, _ => by simp [splitSeqF]
  | 0, m, c :: rest, h, _ => absurd h (by simp)
  | n + 1, 0, c :: rest, _, h => absurd h (by simp)
  | n + 1, m + 1, c :: rest, h1, h2 => by
    have hr1 : rest.length ≤ n := by simp at h1; omega
    have hr2 : rest.length ≤ m := by simp at h2; omega
    simp only [splitSeqF]
    by_cases hp : isPre (c0 :: cs) (c :: rest) = true
    · rw [if_pos hp, if_pos hp]
      have hd1 : ((c :: rest).drop (cs.length + 1)).length ≤ n := by
        simp [List.length_drop]; omega
      have hd2 : ((c :: rest).drop (cs.length + 1)).length ≤ m := by
        simp [List.length_drop]; omega
      rw [splitSeqF_fuel c0 cs n m _ hd1 hd2]
    · rw [if_neg hp, if_neg hp, splitSeqF_fuel c0 cs n m rest hr1 hr2]

theorem splitSeqF_no_occ (c0 : Char) (cs : Str) :
    ∀ n s, s.length ≤ n → ¬ (c0 :: cs) <:+: s → splitSeqF c0 cs n s = [s]
  | n, [], _, _ => by simp [splitSeqF]
  | 0, c :: rest, h, _ => absurd h (by simp)
  | n + 1, c :: rest, hlen, hocc => by
    have hp : ¬ isPre (c0 :: cs) (c :: rest) = true := by
      rw [isPre_iff]
      exact fun hpre => hocc (preInfix hpre)
    have hr : rest.length ≤ n := by simp at hlen; omega
    have hocc' : ¬ (c0 :: cs) <:+: rest := fun h => hocc (consInfix h)
    simp [splitSeqF, hp, splitSeqF_no_occ c0 cs n rest hr hocc']

theorem pySplit_no_char (c : Char) (d : Str) (h : ¬ c ∈ d) : pySplit [c] d = [d] :=
  splitSeqF_no_occ c [] d.length d le_rfl (fun hinf => h (memOfSingletonInfix hinf))

/-- Scanning `x ++ sep ++ y` with no occurrence of `sep` starting inside `x`
emits `x` as the first part and continues after the separator. -/
theorem splitSeqF_boundary (c0 : Char) (cs : Str) :
    ∀ (x : Str) (n : ℕ) (y : Str), (x ++ ((c0 :: cs) ++ y)).length ≤ n →
      (∀ i, i < x.length → ¬ (c0 :: cs) <+: ((x ++ ((c0 :: cs) ++ y)).drop i)) →
      splitSeqF c0 cs n (x ++ ((c0 :: cs) ++ y)) = x :: splitSeqF c0 cs y.length y
  | [], n, y, hlen, _ => by
    cases n with
    | zero => exact absurd hlen (by simp)
    | succ n' =>
      have hp : isPre (c0 :: cs) ((c0 :: cs) ++ y) = true :=
        (isPre_iff _ _).mpr (List.prefix_append _ _)
      have hshape : ([] : Str) ++ ((c0 :: cs) ++ y) = c0 :: (cs ++ y) := by simp
      rw [hshape]
      have hp' : isPre (c0 :: cs) (c0 :: (cs ++ y)) = true := hp
      simp only [splitSeqF, if_pos hp']
      have hdrop : (c0 :: (cs ++ y)).drop (cs.length + 1) = y :=
        List.drop_left (c0 :: cs) y
      rw [hdrop]
      have hy : y.length ≤ n' := by
        simp at hlen
        omega
      rw [splitSeqF_fuel c0 cs n' y.length y hy le_rfl]
  | a :: x', n, y, hlen, hod => by
    cases n with
    | zero => exact absurd hlen (by simp)
    | succ n' =>
      have hp : ¬ isPre (c0 :: cs) ((a :: x') ++ ((c0 :: cs) ++ y)) = true := by
        rw [isPre_iff]
        have := hod 0 (by simp)
        simpa using this
      have hshape : (a :: x') ++ ((c0 :: cs) ++ y) = a :: (x' ++ ((c0 :: cs) ++ y)) :=
        rfl
      have hlen' : (x' ++ ((c0 :: cs) ++ y)).length ≤ n' := by
        simp at hlen ⊢
        omega
      have hod' : ∀ i, i < x'.length →
          ¬ (c0 :: cs) <+: ((x' ++ ((c0 :: cs) ++ y)).drop i) := by
        intro i hi
        have := hod (i + 1) (by simp; omega)
        rw [hshape] at this
        simpa using this
      have hrec := splitSeqF_boundary c0 cs x' n' y hlen' hod'
      rw [hshape]
      have hp' : ¬ isPre (c0 :: cs) (a :: (x' ++ ((c0 :: cs) ++ y))) = true := by
        rw [← hshape]
        exact hp
      simp only [splitSeqF, if_neg hp', hrec]

/-- There is no occurrence of `" - "` starting strictly inside `p` in
`p ++ " - " ++ J`, provided `p` contains no `" - "` and does not end
with `" -"`. -/
theorem dash_no_early (p J : Str) (h1 : ¬ ([' ', '-', ' '] <:+: p))
    (h2 : ¬ ([' ', '-'] <:+ p)) :
    ∀ i, i < p.length → ¬ ([' ', '-', ' '] <+: ((p ++ ([' ', '-', ' '] ++ J)).drop i)) := by
  intro i hi hpre
  have hdrop : (p ++ ([' ', '-', ' '] ++ J)).drop i
      = p.drop i ++ ([' ', '-', ' '] ++ J) := by
    rw [List.drop_append_eq_append_drop, Nat.sub_eq_zero_of_le (le_of_lt hi),
      List.drop_zero]
  rw [hdrop] at hpre
  have hdlen : (p.drop i).length = p.length - i := List.length_drop i p
  have hdsuf : p.drop i <:+ p := List.drop_suffix i p
  rcases Nat.lt_or_ge (p.drop i).length 3 with hlt | hge
  · have hcase : (p.drop i).length = 1 ∨ (p.drop i).length = 2 := by omega
    rcases hcase with h | h
    · obtain ⟨a, ha⟩ := List.length_eq_one.mp h
      rw [ha] at hpre
      simp only [List.cons_append, List.nil_append, List.cons_prefix_cons] at hpre
      exact absurd hpre.2.1 (by decide)
    · obtain ⟨a, b, hab⟩ := List.length_eq_two.mp h
      rw [hab] at hpre
      simp only [List.cons_append, List.nil_append, List.cons_prefix_cons] at hpre
      have hd : p.drop i = [' ', '-'] := by
        rw [hab, ← hpre.1, ← hpre.2.1]
      exact h2 (hd ▸ hdsuf)
  · have hsep : [' ', '-', ' '] <+: p.drop i := by
      rw [List.prefix_iff_eq_take] at hpre
      rw [List.take_append_eq_append_take] at hpre
      have h0 : [' ', '-', ' '].length - (p.drop i).length = 0 := by
        simp at hge ⊢
        omega
      rw [h0, List.take_zero, List.append_nil] at hpre
      rw [List.prefix_iff_eq_take]
      exact hpre
    exact h1 (infixTrans (preInfix hsep) (sufInfix hdsuf))

theorem joinSep_cons₂ (sep x y : Str) (ys : List Str) :
    joinSep sep (x :: y :: ys) = x ++ sep ++ joinSep sep (y :: ys) := rfl

/-- Core round-trip: splitting the `" - "`-join of parts recovers the parts
when no part contains `" - "` or ends with `" -"`. -/
theorem pySplit_join_dash :
    ∀ parts : List Str, parts ≠ [] →
      (∀ p ∈ parts, ¬ ([' ', '-', ' '] <:+: p)) →
      (∀ p ∈ parts, ¬ ([' ', '-'] <:+ p)) →
      pySplit [' ', '-', ' '] (joinSep [' ', '-', ' '] parts) = parts
  | [], h, _, _ => absurd rfl h
  | [p], _, hinf, _ => by
    show splitSeqF ' ' ['-', ' '] (joinSep [' ', '-', ' '] [p]).length
      (joinSep [' ', '-', ' '] [p]) = [p]
    simp only [joinSep]
    exact splitSeqF_no_occ ' ' ['-', ' '] p.length p le_rfl (hinf p (by simp))
  | p :: q :: rest, _, hinf, hsuf => by
    have hJ := pySplit_join_dash (q :: rest) (by simp)
      (fun x hx => hinf x (List.mem_cons_of_mem _ hx))
      (fun x hx => hsuf x (List.mem_cons_of_mem _ hx))
    have hjoin : joinSep [' ', '-', ' '] (p :: q :: rest)
        = p ++ ([' ', '-', ' '] ++ joinSep [' ', '-', ' '] (q :: rest)) := by
      rw [joinSep_cons₂, List.append_assoc]
    show splitSeqF ' ' ['-', ' '] (joinSep [' ', '-', ' '] (p :: q :: rest)).length
      (joinSep [' ', '-', ' '] (p :: q :: rest)) = p :: q :: rest
    rw [hjoin]
    rw [splitSeqF_boundary ' ' ['-', ' '] p _ (joinSep [' ', '-', ' '] (q :: rest))
      le_rfl (dash_no_early p _ (hinf p (by simp)) (hsuf p (by simp)))]
    have : splitSeqF ' ' ['-', ' '] (joinSep [' ', '-', ' '] (q :: rest)).length
        (joinSep [' ', '-', ' '] (q :: rest))
        = pySplit [' ', '-', ' '] (joinSep [' ', '-', ' '] (q :: rest)) := rfl
    rw [this, hJ]

theorem mem_joinSep_infix (sep : Str) :
    ∀ (cs : List Str) (c : Str), c ∈ cs → c <:+: joinSep sep cs
  | [], c, h => absurd h (by simp)
  | [x], c, h => by
    simp at h
    subst h
    simp [joinSep, List.infix_rfl]
  | x :: y :: rest, c, h => by
    rw [joinSep_cons₂]
    rcases List.mem_cons.mp h with h' | h'
    · subst h'
      exact preInfix (by rw [List.append_assoc]; exact List.prefix_append _ _)
    · have := mem_joinSep_infix sep (y :: rest) c h'
      exact infixTrans this (sufInfix (List.suffix_append _ _))

/-! ## The computable rational operations agree with the standard ones -/

theorem qmul_eq (a b : ℚ) : qmul a b = a * b := by
  rw [qmul, Rat.mul_def, Rat.normalize_eq_mkRat]

theorem qadd_eq (a b : ℚ) : qadd a b = a + b := by
  rw [qadd, Rat.add_def']

theorem qsub_eq (a b : ℚ) : qsub a b = a - b := by
  rw [qsub, Rat.sub_def']

theorem mkRat_lit (n : ℤ) (d : ℕ) : mkRat n d = (n : ℚ) / (d : ℚ) := by
  rw [Rat.mkRat_eq_divInt, Rat.divInt_eq_div]
  norm_num

/-! ## Lemmas about normalization and row lookup -/

theorem getVal_nil (c : Str) : getVal [] c = none := rfl

theorem getVal_cons (x : Str × Val) (l : Row) (c : Str) :
    getVal (x :: l) c = if x.1 = c then some x.2 else getVal l c := by
  by_cases h : x.1 = c <;> simp [getVal, List.find?_cons, h]

theorem getVal_append (l₁ l₂ : Row) (c : Str) :
    getVal (l₁ ++ l₂) c = (getVal l₁ c).or (getVal l₂ c) := by
  simp only [getVal, List.find?_append]
  cases List.find? (fun p => decide (p.1 = c)) l₁ <;> simp

theorem baseRow_cons (h : Str) (t : List Str) (cells : List Cell) :
    baseRow (h :: t) cells
      = (h, if h ∈ numeric_cols_to_check then Val.vnum (coerceNum (cells.headD none))
            else rawVal (cells.headD none)) :: baseRow t cells.tail := rfl

theorem getVal_baseRow_mem :
    ∀ (hs : List Str) (cells : List Cell) (c : Str), c ∈ hs →
      ∃ v, getVal (baseRow hs cells) c = some v ∧
        (c ∈ numeric_cols_to_check → ∃ q, v = Val.vnum q)
  | [], _, c, h => absurd h (by simp)
  | h :: t, cells, c, hmem => by
    by_cases he : h = c
    · subst he
      by_cases hn : h ∈ numeric_cols_to_check
      · exact ⟨Val.vnum (coerceNum (cells.headD none)),
          by rw [baseRow_cons, getVal_cons]; simp [hn], fun _ => ⟨_, rfl⟩⟩
      · exact ⟨rawVal (cells.headD none),
          by rw [baseRow_cons, getVal_cons]; simp [hn], fun hc => absurd hc hn⟩
    · have hmem' : c ∈ t := by
        rcases List.mem_cons.mp hmem with h' | h'
        · exact absurd h'.symm he
        · exact h'
      obtain ⟨v, hv, hq⟩ := getVal_baseRow_mem t cells.tail c hmem'
      exact ⟨v, by rw [baseRow_cons, getVal_cons]; simp [he, hv], hq⟩

theorem getVal_baseRow_not_mem :
    ∀ (hs : List Str) (cells : List Cell) (c : Str), ¬ c ∈ hs →
      getVal (baseRow hs cells) c = none
  | [], _, _, _ => rfl
  | h :: t, cells, c, hmem => by
    have he : h ≠ c := fun h' => hmem (h' ▸ List.mem_cons_self h t)
    have hmem' : ¬ c ∈ t := fun h' => hmem (List.mem_cons_of_mem _ h')
    rw [baseRow_cons, getVal_cons]
    simp [he, getVal_baseRow_not_mem t cells.tail c hmem']

theorem getVal_normalizeRow_mem (hs : List Str) (cells : List Cell) (c : Str)
    (hc : c ∈ hs) :
    getVal (normalizeRow hs cells) c = getVal (baseRow hs cells) c := by
  unfold normalizeRow
  split
  · rfl
  · split
    · obtain ⟨v, hv, _⟩ := getVal_baseRow_mem hs cells c hc
      rw [getVal_append, hv]
      rfl
    · rfl

theorem getVal_normalizeRow_not_mem (hs : List Str) (cells : List Cell) (c : Str)
    (hc : ¬ c ∈ hs) (hne : c ≠ endWCol) :
    getVal (normalizeRow hs cells) c = none := by
  unfold normalizeRow
  split
  · exact getVal_baseRow_not_mem hs cells c hc
  · split
    · rw [getVal_append, getVal_baseRow_not_mem hs cells c hc, getVal_cons]
      rw [if_neg (show ¬ endWCol = c from fun h => hne h.symm)]
      rfl
    · exact getVal_baseRow_not_mem hs cells c hc

theorem normalizeRow_synth (hs : List Str) (cells : List Cell)
    (h1 : ¬ endWCol ∈ hs) (h2 : lbsCol ∈ hs) :
    ∃ q, getVal (baseRow hs cells) lbsCol = some (Val.vnum q) ∧
      getVal (normalizeRow hs cells) endWCol = some (Val.vnum (qmul q 16)) := by
  obtain ⟨v, hv, hq⟩ := getVal_baseRow_mem hs cells lbsCol h2
  obtain ⟨q, rfl⟩ := hq (by decide)
  refine ⟨q, hv, ?_⟩
  unfold normalizeRow
  rw [if_neg (by simp [h1, h2]), hv]
  rw [getVal_append, getVal_baseRow_not_mem hs cells endWCol h1, getVal_cons]
  simp

/-! ## Lemmas about the processing loop -/

theorem processRow_ok_elim {r : Row} {out : RowTriple}
    (h : processRow r = Except.ok out) :
    ∃ descV skuV priceV lbsQ qtyV burnV endWV,
      getVal r descCol = some descV ∧ getVal r skuCol = some skuV ∧
      getVal r priceCol = some priceV ∧ getVal r lbsCol = some (Val.vnum lbsQ) ∧
      getVal r qtyCol = some qtyV ∧ getVal r burnCol = some burnV ∧
      getVal r endWCol = some endWV ∧
      out = mkRowTriple r descV skuV priceV lbsQ qtyV burnV endWV := by
  unfold processRow at h
  split at h
  · rename_i descV skuV priceV lbsQ qtyV burnV endWV h1 h2 h3 h4 h5 h6 h7
    exact ⟨descV, skuV, priceV, lbsQ, qtyV, burnV, endWV,
      h1, h2, h3, h4, h5, h6, h7, (Except.ok.inj h).symm⟩
  · exact absurd h (by simp)

theorem processRow_ok_mk {r : Row} {descV skuV priceV qtyV burnV endWV : Val}
    {lbsQ : ℚ}
    (h1 : getVal r descCol = some descV) (h2 : getVal r skuCol = some skuV)
    (h3 : getVal r priceCol = some priceV)
    (h4 : getVal r lbsCol = some (Val.vnum lbsQ))
    (h5 : getVal r qtyCol = some qtyV) (h6 : getVal r burnCol = some burnV)
    (h7 : getVal r endWCol = some endWV) :
    processRow r = Except.ok (mkRowTriple r descV skuV priceV lbsQ qtyV burnV endWV) := by
  unfold processRow
  rw [h1, h2, h3, h4, h5, h6, h7]

theorem processRows_ok_length :
    ∀ {rs : List Row} {ts : List RowTriple}, processRows rs = Except.ok ts →
      ts.length = rs.length
  | [], ts, h => by
    simp only [processRows] at h
    rw [← Except.ok.inj h]
    rfl
  | r :: rs, ts, h => by
    unfold processRows at h
    split at h
    · exact absurd h (by simp)
    · exact absurd h (by simp)
    · rename_i t ts' ht hts
      rw [← Except.ok.inj h]
      simp [processRows_ok_length hts]

theorem processRows_ok_get :
    ∀ {rs : List Row} {ts : List RowTriple}, processRows rs = Except.ok ts →
      ∀ i : ℕ, ts[i]? = (rs[i]?).bind (fun r => (processRow r).toOption)
  | [], ts, h, i => by
    simp only [processRows] at h
    have := Except.ok.inj h
    subst this
    simp
  | r :: rs, ts, h, i => by
    unfold processRows at h
    split at h
    · exact absurd h (by simp)
    · exact absurd h (by simp)
    · rename_i t ts' ht hts
      have := Except.ok.inj h
      subst this
      cases i with
      | zero => simp [ht, Except.toOption]
      | succ i' =>
        rw [List.getElem?_cons_succ, List.getElem?_cons_succ]
        exact processRows_ok_get hts i'

/-! ## Body-template infix helpers -/

theorem weight_infix_body (bt ew h w : Str) :
    ("Weight: ".toList ++ ew ++ " oz".toList) <:+: body_html bt ew h w := by
  refine ⟨"\n                <p data-mce-fragment=\"1\">Approximate Burn Time: ".toList
    ++ bt ++ " hours</p>\n                <p data-mce-fragment=\"1\">".toList,
    "</p>\n                <p data-mce-fragment=\"1\">Dimensions: ".toList ++ h
    ++ "\" Height x ".toList ++ w ++ "\" Width</p>\n            ".toList, ?_⟩
  simp [body_html, List.append_assoc]

theorem height_infix_body (bt ew h w : Str) : h <:+: body_html bt ew h w := by
  refine ⟨"\n                <p data-mce-fragment=\"1\">Approximate Burn Time: ".toList
    ++ bt ++ " hours</p>\n                <p data-mce-fragment=\"1\">".toList
    ++ "Weight: ".toList ++ ew ++ " oz".toList
    ++ "</p>\n                <p data-mce-fragment=\"1\">Dimensions: ".toList,
    "\" Height x ".toList ++ w ++ "\" Width</p>\n            ".toList, ?_⟩
  simp only [body_html, List.append_assoc]

theorem width_infix_body (bt ew h w : Str) : w <:+: body_html bt ew h w := by
  refine ⟨"\n                <p data-mce-fragment=\"1\">Approximate Burn Time: ".toList
    ++ bt ++ " hours</p>\n                <p data-mce-fragment=\"1\">".toList
    ++ "Weight: ".toList ++ ew ++ " oz".toList
    ++ "</p>\n                <p data-mce-fragment=\"1\">Dimensions: ".toList ++ h
    ++ "\" Height x ".toList,
    "\" Width</p>\n            ".toList, ?_⟩
  simp only [body_html, List.append_assoc]

/-! ## Claim theorems -/

/-- C3: a table missing at least one required column among `SKU`,
`Fragrance - Vessel Description`, `Retail Price`, `End Weight (lbs)`,
`Quantity` makes the run abort with an error naming every missing required
column (the full filtered list, each one an infix of the error text), and
no output tables are produced. -/
theorem missing_columns_abort (t : RawTable) (h : missing_cols t ≠ []) :
    run t = Except.error (RunError.missingColumns (missing_cols t)) ∧
    (∀ out, run t ≠ Except.ok out) ∧
    (∀ c, c ∈ required_cols → ¬ c ∈ t.headers.map trimChars → c ∈ missing_cols t) ∧
    (∀ c, c ∈ missing_cols t → c ∈ required_cols ∧ ¬ c ∈ t.headers.map trimChars) ∧
    (∀ c, c ∈ missing_cols t →
      c <:+: errorMessageOf (RunError.missingColumns (missing_cols t))) := by
  have h1 : run t = Except.error (RunError.missingColumns (missing_cols t)) := by
    unfold run
    rw [if_pos h]
  refine ⟨h1, ?_, ?_, ?_, ?_⟩
  · intro out hc
    rw [h1] at hc
    exact absurd hc (by simp)
  · intro c hcr hcm
    simp only [missing_cols, List.mem_filter, decide_eq_true_eq]
    exact ⟨hcr, hcm⟩
  · intro c hc
    simp only [missing_cols, List.mem_filter, decide_eq_true_eq] at hc
    exact hc
  · intro c hc
    have hj : c <:+: joinSep (", ".toList) (missing_cols t) :=
      mem_joinSep_infix _ _ _ hc
    unfold errorMessageOf missing_message
    exact infix_append_outer _ _ hj

/-- C4: on a successful run, each of the three output tables has exactly one
row per input row, and row `i` of each table is the corresponding component
of `processRow` applied to the normalization of input row `i`. -/
theorem row_correspondence (t : RawTable)
    (out : List NetsuiteRow × List ShopifyRow × List InvAdjRow)
    (h : run t = Except.ok out) :
    out.1.length = t.rows.length ∧ out.2.1.length = t.rows.length ∧
    out.2.2.length = t.rows.length ∧
    ∀ i : ℕ,
      out.1[i]? = (t.rows[i]?).bind (fun cells =>
        (processRow (normalizeRow (t.headers.map trimChars) cells)).toOption.map
          (fun x => x.1)) ∧
      out.2.1[i]? = (t.rows[i]?).bind (fun cells =>
        (processRow (normalizeRow (t.headers.map trimChars) cells)).toOption.map
          (fun x => x.2.1)) ∧
      out.2.2[i]? = (t.rows[i]?).bind (fun cells =>
        (processRow (normalizeRow (t.headers.map trimChars) cells)).toOption.map
          (fun x => x.2.2)) := by
  unfold run at h
  split at h
  · exact absurd h (by simp)
  · split at h
    · exact absurd h (by simp)
    · rename_i ts hts
      have := Except.ok.inj h
      subst this
      have hlen : ts.length = t.rows.length := by
        rw [processRows_ok_length hts, List.length_map]
      refine ⟨by simp [hlen], by simp [hlen], by simp [hlen], ?_⟩
      intro i
      have hget := processRows_ok_get hts i
      rw [List.getElem?_map] at hget
      refine ⟨?_, ?_, ?_⟩ <;>
      · rw [List.getElem?_map, hget]
        cases t.rows[i]? <;> simp

/-- C1: the NetSuite display name of every processed row is the description
split on `'|'`, each part trimmed, rejoined with `" - "`; a description with
no `'|'` passes through trimmed but otherwise unchanged; on the worked
example it is `"Vanilla Bean - Mason Jar"`. -/
theorem display_name_spec :
    (∀ (r : Row) (out : RowTriple), processRow r = Except.ok out →
      out.1.displayName
        = joinSep (" - ".toList)
            ((pySplit ("|".toList) (pyStrOf r descCol)).map trimChars)) ∧
    (∀ d : Str, ¬ '|' ∈ d → netsuite_display_name d = trimChars d) ∧
    netsuite_display_name ("Vanilla Bean | Mason Jar".toList)
      = ("Vanilla Bean - Mason Jar").toList := by
  refine ⟨?_, ?_, by decide⟩
  · intro r out h
    obtain ⟨descV, skuV, priceV, lbsQ, qtyV, burnV, endWV,
      h1, h2, h3, h4, h5, h6, h7, rfl⟩ := processRow_ok_elim h
    simp [mkRowTriple, netsuiteRowOf, netsuite_display_name, pyStrOf, h1]
  · intro d hd
    unfold netsuite_display_name
    rw [show ("|".toList) = ['|'] from rfl, pySplit_no_char '|' d hd]
    rfl

/-- C2: the fragrance is the first `'-'`-segment (after replacing `'|'` by
`'-'`) of the description, trimmed; the smells-like tag is the fragrance
lowercased with spaces replaced by hyphens; the Tags cell of every processed
row is `shopify_tags` of the SKU string and description, and on the worked
example it contains `antique123456` and `_tab1_vanilla-bean-smells-like`. -/
theorem fragrance_tags_spec :
    (∀ (r : Row) (out : RowTriple), processRow r = Except.ok out →
      out.2.1.tags = shopify_tags (pyStrOf r skuCol) (pyStrOf r descCol)) ∧
    fragrance exDesc = "Vanilla Bean".toList ∧
    smells_like exDesc = "vanilla-bean".toList ∧
    ("antique123456".toList <:+: shopify_tags ("ABC123456".toList) exDesc) ∧
    ("_tab1_vanilla-bean-smells-like".toList
      <:+: shopify_tags ("ABC123456".toList) exDesc) := by
  refine ⟨?_, by decide, by decide, by decide, by decide⟩
  intro r out h
  obtain ⟨descV, skuV, priceV, lbsQ, qtyV, burnV, endWV,
    h1, h2, h3, h4, h5, h6, h7, rfl⟩ := processRow_ok_elim h
  simp [mkRowTriple, shopifyRowOf, pyStrOf, h1, h2]

/-- C5 (amended): after normalization every present numeric column holds a
number, never a null; a null or unparseable cell coerces to `0`. (The
original claim also asserted non-negativity, which the code does not
enforce: see the counterexample.) -/
theorem numeric_coercion_amended :
    (∀ (hs : List Str) (cells : List Cell) (c : Str),
      c ∈ numeric_cols_to_check → c ∈ hs →
      ∃ q : ℚ, getVal (normalizeRow hs cells) c = some (Val.vnum q)) ∧
    coerceNum none = 0 ∧
    (∀ s, parseNum s = none → coerceNum (some s) = 0) := by
  refine ⟨?_, rfl, ?_⟩
  · intro hs cells c hn hmem
    obtain ⟨v, hv, hq⟩ := getVal_baseRow_mem hs cells c hmem
    obtain ⟨q, rfl⟩ := hq hn
    exact ⟨q, by rw [getVal_normalizeRow_mem hs cells c hmem, hv]⟩
  · intro s hp
    simp [coerceNum, hp]

/-- C5 counterexample: a validated table with `Retail Price` cell `"-1"`
normalizes that field to the negative number `-1`, refuting the claimed
non-negativity invariant. -/
theorem numeric_nonneg_counterexample :
    priceCol ∈ numeric_cols_to_check ∧ priceCol ∈ hsNeg ∧
    (∀ c, c ∈ required_cols → c ∈ hsNeg) ∧
    getVal (normalizeRow hsNeg cellsNeg) priceCol = some (Val.vnum (-1)) ∧
    ((-1 : ℚ) < 0) := by decide

/-- C7: when the `End Weight` column is absent and `End Weight (lbs)` is
present, normalization synthesizes `End Weight = End Weight (lbs) × 16`,
and the weight interpolated into the Shopify body text is exactly that
synthesized value. -/
theorem end_weight_synthesis (hs : List Str) (cells : List Cell)
    (h1 : ¬ endWCol ∈ hs) (h2 : lbsCol ∈ hs) :
    ∃ q, getVal (baseRow hs cells) lbsCol = some (Val.vnum q) ∧
      getVal (normalizeRow hs cells) endWCol = some (Val.vnum (q * 16)) ∧
      ∀ out : RowTriple, processRow (normalizeRow hs cells) = Except.ok out →
        ("Weight: ".toList ++ fmtQ (q * 16) ++ " oz".toList)
          <:+: out.2.1.bodyHtml := by
  obtain ⟨q, hlbs, hsynth⟩ := normalizeRow_synth hs cells h1 h2
  rw [qmul_eq] at hsynth
  refine ⟨q, hlbs, hsynth, ?_⟩
  intro out hout
  obtain ⟨descV, skuV, priceV, lbsQ, qtyV, burnV, endWV,
    e1, e2, e3, e4, e5, e6, e7, rfl⟩ := processRow_ok_elim hout
  have hE : endWV = Val.vnum (q * 16) := by
    rw [e7] at hsynth
    exact Option.some.inj hsynth
  subst hE
  have hbody : (mkRowTriple (normalizeRow hs cells) descV skuV priceV lbsQ qtyV
      burnV (Val.vnum (q * 16))).2.1.bodyHtml
      = body_html (pyStr burnV) (fmtQ (q * 16))
          (heightDispOf (normalizeRow hs cells))
          (widthDispOf (normalizeRow hs cells)) := by
    simp [mkRowTriple, shopifyRowOf, pyStr]
  rw [hbody]
  exact weight_infix_body _ _ _ _

/-- C8: in every processed row's inventory-adjustment record, `External ID`,
`memo` and `Line memo` all equal `"Antique Restock "` followed by the last
six characters of the SKU string (all of it when shorter — `pyLast6` is a
suffix of length `min 6 (length)`); `Full name` is the SKU, a space, and
the display name; `line qty adj` is the `Quantity` value and `itemId` is
the SKU value. -/
theorem inventory_adjustment_fields :
    (∀ (r : Row) (out : RowTriple), processRow r = Except.ok out →
      out.2.2.externalId = "Antique Restock ".toList ++ pyLast6 (pyStrOf r skuCol) ∧
      out.2.2.memo = "Antique Restock ".toList ++ pyLast6 (pyStrOf r skuCol) ∧
      out.2.2.lineMemo = "Antique Restock ".toList ++ pyLast6 (pyStrOf r skuCol) ∧
      out.2.2.fullName
        = pyStrOf r skuCol ++ " ".toList
            ++ netsuite_display_name (pyStrOf r descCol) ∧
      getVal r qtyCol = some out.2.2.lineQtyAdj ∧
      getVal r skuCol = some out.2.2.itemId) ∧
    (∀ s : Str, (pyLast6 s).length = min 6 s.length ∧ pyLast6 s <:+ s) := by
  refine ⟨?_, ?_⟩
  · intro r out h
    obtain ⟨descV, skuV, priceV, lbsQ, qtyV, burnV, endWV,
      h1, h2, h3, h4, h5, h6, h7, rfl⟩ := processRow_ok_elim h
    refine ⟨?_, ?_, ?_, ?_, ?_, ?_⟩ <;>
      simp [mkRowTriple, invRowOf, netsuite_display_name, pyStrOf, h1, h2, h5]
  · intro s
    constructor
    · rw [pyLast6, List.length_drop]
      omega
    · exact List.drop_suffix _ _

/-- C10: the Shopify `Variant Grams` of every processed row is the
round-half-to-even rounding (Python `round`) of
`End Weight (lbs) × 453.592` taken over exact rationals; `bankersRound`
indeed breaks ties to the even integer. -/
theorem variant_grams_round :
    (∀ (r : Row) (out : RowTriple), processRow r = Except.ok out →
      ∃ q, getVal r lbsCol = some (Val.vnum q) ∧
        out.2.1.variantGrams = bankersRound (q * (453592 / 1000 : ℚ))) ∧
    bankersRound (5 / 2 : ℚ) = 2 ∧ bankersRound (7 / 2 : ℚ) = 4 ∧
    bankersRound (1 / 2 : ℚ) = 0 ∧ bankersRound (3 / 2 : ℚ) = 2 ∧
    bankersRound (-5 / 2 : ℚ) = -2 := by
  have t52 : (5 / 2 : ℚ) = mkRat 5 2 := by rw [mkRat_lit]; norm_num
  have t72 : (7 / 2 : ℚ) = mkRat 7 2 := by rw [mkRat_lit]; norm_num
  have t12 : (1 / 2 : ℚ) = mkRat 1 2 := by rw [mkRat_lit]; norm_num
  have t32 : (3 / 2 : ℚ) = mkRat 3 2 := by rw [mkRat_lit]; norm_num
  have tm52 : (-5 / 2 : ℚ) = mkRat (-5) 2 := by rw [mkRat_lit]; norm_num
  refine ⟨?_, by rw [t52]; decide, by rw [t72]; decide, by rw [t12]; decide,
    by rw [t32]; decide, by rw [tm52]; decide⟩
  intro r out h
  obtain ⟨descV, skuV, priceV, lbsQ, qtyV, burnV, endWV,
    h1, h2, h3, h4, h5, h6, h7, rfl⟩ := processRow_ok_elim h
  refine ⟨lbsQ, h4, ?_⟩
  have hc : (mkRat 453592 1000 : ℚ) = 453592 / 1000 := by rw [mkRat_lit]; norm_num
  simp [mkRowTriple, shopifyRowOf, qmul_eq, hc]

/-- C6 (amended): every field derivation is total over a normalized row from
a table containing the required columns and `Burn Time`; absent `Height` or
`Width` columns render the `"N/A"` sentinel in the body text and absent
`End Weight` is synthesized, so the row still processes. (The original
claim also allowed `Burn Time` to be absent, which makes the run fail:
see the counterexample.) -/
theorem derivation_total_amended (hs : List Str) (cells : List Cell)
    (hreq : ∀ c, c ∈ required_cols → c ∈ hs) (hburn : burnCol ∈ hs) :
    ∃ out : RowTriple, processRow (normalizeRow hs cells) = Except.ok out ∧
      ((¬ heightCol ∈ hs ∨ ¬ widthCol ∈ hs) →
        ("N/A".toList) <:+: out.2.1.bodyHtml) := by
  have hdesc : descCol ∈ hs := hreq _ (by decide)
  have hsku : skuCol ∈ hs := hreq _ (by decide)
  have hprice : priceCol ∈ hs := hreq _ (by decide)
  have hlbs : lbsCol ∈ hs := hreq _ (by decide)
  have hqty : qtyCol ∈ hs := hreq _ (by decide)
  obtain ⟨vd, hvd, _⟩ := getVal_baseRow_mem hs cells descCol hdesc
  obtain ⟨vs, hvs, _⟩ := getVal_baseRow_mem hs cells skuCol hsku
  obtain ⟨vp, hvp, _⟩ := getVal_baseRow_mem hs cells priceCol hprice
  obtain ⟨vl, hvl, hlq⟩ := getVal_baseRow_mem hs cells lbsCol hlbs
  obtain ⟨q, rfl⟩ := hlq (by decide)
  obtain ⟨vq, hvq, _⟩ := getVal_baseRow_mem hs cells qtyCol hqty
  obtain ⟨vb, hvb, _⟩ := getVal_baseRow_mem hs cells burnCol hburn
  have nvd := (getVal_normalizeRow_mem hs cells descCol hdesc).trans hvd
  have nvs := (getVal_normalizeRow_mem hs cells skuCol hsku).trans hvs
  have nvp := (getVal_normalizeRow_mem hs cells priceCol hprice).trans hvp
  have nvl := (getVal_normalizeRow_mem hs cells lbsCol hlbs).trans hvl
  have nvq := (getVal_normalizeRow_mem hs cells qtyCol hqty).trans hvq
  have nvb := (getVal_normalizeRow_mem hs cells burnCol hburn).trans hvb
  have hendW : ∃ ve, getVal (normalizeRow hs cells) endWCol = some ve := by
    by_cases hE : endWCol ∈ hs
    · obtain ⟨ve, hve, _⟩ := getVal_baseRow_mem hs cells endWCol hE
      exact ⟨ve, (getVal_normalizeRow_mem hs cells endWCol hE).trans hve⟩
    · obtain ⟨q', _, hve⟩ := normalizeRow_synth hs cells hE hlbs
      exact ⟨_, hve⟩
  obtain ⟨ve, hve⟩ := hendW
  refine ⟨mkRowTriple (normalizeRow hs cells) vd vs vp q vq vb ve,
    processRow_ok_mk nvd nvs nvp nvl nvq nvb hve, ?_⟩
  intro hHW
  have hbody : (mkRowTriple (normalizeRow hs cells) vd vs vp q vq vb ve).2.1.bodyHtml
      = body_html (pyStr vb) (pyStr ve) (heightDispOf (normalizeRow hs cells))
          (widthDispOf (normalizeRow hs cells)) := by
    simp [mkRowTriple, shopifyRowOf]
  rw [hbody]
  rcases hHW with hH | hW
  · have hh : heightDispOf (normalizeRow hs cells) = "N/A".toList := by
      unfold heightDispOf
      rw [getVal_normalizeRow_not_mem hs cells heightCol hH (by decide)]
    rw [hh]
    exact height_infix_body _ _ _ _
  · have hw : widthDispOf (normalizeRow hs cells) = "N/A".toList := by
      unfold widthDispOf
      rw [getVal_normalizeRow_not_mem hs cells widthCol hW (by decide)]
    rw [hw]
    exact width_infix_body _ _ _ _

/-- C6 counterexample: a valid table (all required columns present) without
the optional `Burn Time` column makes the run abort instead of completing —
the `row['Burn Time']` lookup in the body derivation fails. -/
theorem burn_time_missing_counterexample :
    missing_cols tNoBurn = [] ∧
    ¬ burnCol ∈ tNoBurn.headers ∧
    run tNoBurn = Except.error RunError.rowFailure := by decide

/-- C9 (amended): splitting the derived display name on `" - "` recovers the
trimmed pipe segments whenever the description contains no `" - "` substring
and additionally no trimmed segment ends with `" -"`. (Without the extra
condition the claim fails: see the counterexample.) -/
theorem display_name_roundtrip_amended (d : Str)
    (h1 : ¬ ((" - ".toList) <:+: d))
    (h2 : ∀ p ∈ (pySplit ("|".toList) d).map trimChars, ¬ ((" -".toList) <:+ p)) :
    pySplit (" - ".toList) (netsuite_display_name d)
      = (pySplit ("|".toList) d).map trimChars := by
  have hd3 : (" - ".toList) = [' ', '-', ' '] := rfl
  have hd2 : (" -".toList) = [' ', '-'] := rfl
  have hne : (pySplit ("|".toList) d).map trimChars ≠ [] := by
    intro hcon
    rw [List.map_eq_nil_iff] at hcon
    exact splitSeqF_ne_nil '|' [] d.length d hcon
  have hinf : ∀ p ∈ (pySplit ("|".toList) d).map trimChars,
      ¬ ([' ', '-', ' '] <:+: p) := by
    intro p hp hcon
    obtain ⟨p0, hp0, rfl⟩ := List.mem_map.mp hp
    have hp0d : p0 <:+: d := splitSeqF_parts_sub '|' [] d.length d p0 le_rfl hp0
    have htp : trimChars p0 <:+: d := infixTrans (trimChars_sub p0) hp0d
    exact h1 (hd3 ▸ infixTrans hcon htp)
  have hsuf : ∀ p ∈ (pySplit ("|".toList) d).map trimChars,
      ¬ ([' ', '-'] <:+ p) := by
    intro p hp
    have := h2 p hp
    rwa [hd2] at this
  have hcore := pySplit_join_dash ((pySplit ("|".toList) d).map trimChars)
    hne hinf hsuf
  unfold netsuite_display_name
  rw [hd3]
  exact hcore

/-- C9 counterexample: the description `"a -|b"` contains no `" - "`, yet
splitting its display name `"a - - b"` on `" - "` yields `["a", "- b"]`,
not the trimmed segments `["a -", "b"]`. -/
theorem display_name_roundtrip_counterexample :
    ¬ ((" - ".toList) <:+: ("a -|b".toList)) ∧
    netsuite_display_name ("a -|b".toList) = "a - - b".toList ∧
    pySplit (" - ".toList) (netsuite_display_name ("a -|b".toList))
      = ["a".toList, "- b".toList] ∧
    (pySplit ("|".toList) ("a -|b".toList)).map trimChars
      = ["a -".toList, "b".toList] ∧
    pySplit (" - ".toList) (netsuite_display_name ("a -|b".toList))
      ≠ (pySplit ("|".toList) ("a -|b".toList)).map trimChars := by decide

/-! ## Witnesses: each hypothesis-bearing claim theorem applied at a
concrete input. -/

theorem display_name_spec_witness :
    Except.map (fun o : RowTriple => o.1.displayName) (processRow exRow)
      = Except.ok ("Vanilla Bean - Mason Jar".toList) := by
  rcases hp : processRow exRow with e | out
  · have hok : (processRow exRow).isOk = true := by decide
    rw [hp] at hok
    exact absurd hok (by simp [Except.isOk, Except.toBool])
  · simp only [Except.map]
    rw [display_name_spec.1 exRow out hp]
    decide

theorem fragrance_tags_spec_witness :
    Except.map (fun o : RowTriple => o.2.1.tags) (processRow exRow)
      = Except.ok (shopify_tags ("ABC123456".toList) exDesc) := by
  rcases hp : processRow exRow with e | out
  · have hok : (processRow exRow).isOk = true := by decide
    rw [hp] at hok
    exact absurd hok (by simp [Except.isOk, Except.toBool])
  · simp only [Except.map]
    rw [fragrance_tags_spec.1 exRow out hp]
    decide

theorem missing_columns_abort_witness :
    missing_cols exTableBad = [qtyCol] ∧
    run exTableBad = Except.error (RunError.missingColumns [qtyCol]) := by
  have hm : missing_cols exTableBad = [qtyCol] := by decide
  have h1 := (missing_columns_abort exTableBad (by decide)).1
  rw [hm] at h1
  exact ⟨hm, h1⟩

theorem row_correspondence_witness :
    Except.map (fun o : List NetsuiteRow × List ShopifyRow × List InvAdjRow =>
      (o.1.length, o.2.1.length, o.2.2.length)) (run exTable)
      = Except.ok (1, 1, 1) := by
  rcases hp : run exTable with e | out
  · have hok : (run exTable).isOk = true := by decide
    rw [hp] at hok
    exact absurd hok (by simp [Except.isOk, Except.toBool])
  · obtain ⟨l1, l2, l3, _⟩ := row_correspondence exTable out hp
    simp only [Except.map]
    rw [l1, l2, l3]
    rfl

theorem numeric_coercion_amended_witness :
    ∃ q : ℚ, getVal (normalizeRow hsNeg cellsNeg) priceCol = some (Val.vnum q) :=
  numeric_coercion_amended.1 hsNeg cellsNeg priceCol (by decide) (by decide)

theorem derivation_total_amended_witness :
    ∃ out : RowTriple, processRow (normalizeRow hsW cellsW) = Except.ok out ∧
      ("N/A".toList) <:+: out.2.1.bodyHtml := by
  obtain ⟨out, hok, hna⟩ :=
    derivation_total_amended hsW cellsW (by decide) (by decide)
  exact ⟨out, hok, hna (Or.inl (by decide))⟩

theorem end_weight_synthesis_witness :
    getVal (normalizeRow hsW cellsW) endWCol = some (Val.vnum 24) := by
  obtain ⟨q, hq1, hq2, _⟩ := end_weight_synthesis hsW cellsW (by decide) (by decide)
  have hqv : getVal (baseRow hsW cellsW) lbsCol = some (Val.vnum (mkRat 3 2)) := by
    decide
  rw [hqv] at hq1
  have hq : q = mkRat 3 2 := (Val.vnum.inj (Option.some.inj hq1)).symm
  subst hq
  rw [hq2, show (mkRat 3 2 * 16 : ℚ) = 24 from by rw [mkRat_lit]; norm_num]

theorem inventory_adjustment_fields_witness :
    Except.map (fun o : RowTriple => o.2.2.externalId) (processRow exRow)
      = Except.ok ("Antique Restock 123456".toList) := by
  rcases hp : processRow exRow with e | out
  · have hok : (processRow exRow).isOk = true := by decide
    rw [hp] at hok
    exact absurd hok (by simp [Except.isOk, Except.toBool])
  · simp only [Except.map]
    rw [(inventory_adjustment_fields.1 exRow out hp).1]
    decide

theorem display_name_roundtrip_amended_witness :
    pySplit (" - ".toList) (netsuite_display_name exDesc)
      = ["Vanilla Bean".toList, "Mason Jar".toList] := by
  rw [display_name_roundtrip_amended exDesc (by decide) (by decide)]
  decide

theorem variant_grams_round_witness :
    Except.map (fun o : RowTriple => o.2.1.variantGrams) (processRow exRow)
      = Except.ok 680 := by
  rcases hp : processRow exRow with e | out
  · have hok : (processRow exRow).isOk = true := by decide
    rw [hp] at hok
    exact absurd hok (by simp [Except.isOk, Except.toBool])
  · obtain ⟨q, hq, hgr⟩ := variant_grams_round.1 exRow out hp
    have hqv : getVal exRow lbsCol = some (Val.vnum (mkRat 3 2)) := by decide
    rw [hqv] at hq
    have hq32 : q = mkRat 3 2 := (Val.vnum.inj (Option.some.inj hq)).symm
    subst hq32
    simp only [Except.map]
    rw [hgr, show (mkRat 3 2 * (453592 / 1000 : ℚ)) = mkRat 680388 1000 from by
      rw [mkRat_lit, mkRat_lit]; norm_num]
    decide

end AntiqueApp
